import Mathlib

/-!
Shallow embedding of `system/todo/repo_rule_checker.py` (class `RuleChecker`):
the ID-uniqueness check, the cross-file reference check, the area-status
oracle, the PEP8/language checks, and the per-rule severity tally.

Conventions of the embedding:
* A scanned file is a relative path plus the outcome of reading it
  (`ReadResult`): raw text with an optional parsed JSON value (`none` models
  a `json.JSONDecodeError`), a `UnicodeDecodeError`, or any other unexpected
  exception.
* JSON objects are the dictionaries produced by `json.loads`, so keys are
  unique; they are represented as association lists in insertion order.
  JSON numbers are modelled as integers (float values never qualify as ids
  because `isinstance(x, (str, int))` is false for floats); Python `bool` is
  a subclass of `int`, so boolean values under identifier keys qualify and
  stringify to `True` / `False` exactly as in CPython.
* The filesystem is an oracle `String → Bool` over unnormalized joined path
  strings, mirroring `pathlib`'s purely syntactic `/` operator.
* Quotation marks inside human-readable messages are elided (apostrophes do
  not appear in string literals).
-/

namespace MetroRuleChecker

/-- Python `pat in s` substring test, over character lists. -/
def listContainsSub (s pat : List Char) : Bool :=
  match s with
  | [] => pat.isEmpty
  | c :: rest => pat.isPrefixOf (c :: rest) || listContainsSub rest pat

/-- Python `pat in s` substring test on strings. -/
def containsSubstr (s pat : String) : Bool :=
  listContainsSub s.data pat.data

/-- The characters stripped by Python `str.rstrip()` with no argument. -/
def isPyWhitespace (c : Char) : Bool :=
  c = ' ' || c = '\t' || c = '\n' || c = '\r' || c = '\x0b' || c = '\x0c'

/-- Python `s.rstrip()`. -/
def pyRstrip (s : String) : String :=
  ⟨(s.data.reverse.dropWhile isPyWhitespace).reverse⟩

/-- Python `s.lower()` (ASCII range, which covers every string the checker
lowercases: extensions and English search terms). -/
def pyLower (s : String) : String :=
  ⟨s.data.map Char.toLower⟩

/-- Drop all trailing `/` characters (Python `s.rstrip('/')`), list form. -/
def stripTrailingSlashes (l : List Char) : List Char :=
  (l.reverse.dropWhile (· = '/')).reverse

/-- Python `s.lstrip('/')`. -/
def dropLeadingSlashes (s : String) : String :=
  ⟨s.data.dropWhile (· = '/')⟩

/-- Python `s.startswith(pre)`. -/
def pyStartsWith (s pre : String) : Bool :=
  pre.data.isPrefixOf s.data

/-- Python `s.endswith(suf)`. -/
def pyEndsWith (s suf : String) : Bool :=
  suf.data.isSuffixOf s.data

/-- `pathlib`'s `/` operator on a relative right operand: plain string
join with a separator. -/
def joinPath (base rel : String) : String :=
  base ++ "/" ++ rel

/-- `pathlib`'s `/` operator in general: an absolute right operand
replaces the base entirely (`Path(base) / rel` is `rel` when `rel` starts
with a separator), otherwise the operands are joined with a separator. -/
def pathJoin (base rel : String) : String :=
  if pyStartsWith rel "/" then rel else joinPath base rel

/-- Split a character list at every `/` (the behavior of splitting a path
string on the separator; the empty input yields one empty component). -/
def splitOnSlashAux (acc : List Char) : List Char → List (List Char)
  | [] => [acc.reverse]
  | c :: cs =>
    if c = '/' then acc.reverse :: splitOnSlashAux [] cs
    else splitOnSlashAux (c :: acc) cs

/-- Join components back with `/` separators. -/
def joinSlash : List (List Char) → List Char
  | [] => []
  | [x] => x
  | x :: xs => x ++ '/' :: joinSlash xs

/-- Final path component (`pathlib.Path(p).name` for the clean relative
paths produced by the repository scan). -/
def fileNameOf (p : String) : String :=
  ⟨(splitOnSlashAux [] p.data).getLastD []⟩

/-- Index of the last `.` in a character list, if any. -/
def lastDotIdx (l : List Char) : Option Nat :=
  match l.reverse.findIdx? (· = '.') with
  | some j => some (l.length - 1 - j)
  | none => none

/-- `pathlib.Path(p).suffix`: CPython returns `name[i:]` for the last dot
index `i` when `0 < i < len(name) - 1`, else the empty string. -/
def pathSuffix (p : String) : String :=
  let name := fileNameOf p
  match lastDotIdx name.data with
  | some i => if 0 < i ∧ i < name.data.length - 1 then ⟨name.data.drop i⟩ else ""
  | none => ""

/-- `file_path.suffix.lower()` as used by every per-file dispatch. -/
def suffixLower (p : String) : String :=
  pyLower (pathSuffix p)

/-- Parent directory of a joined path (`Path.parent` of `repo_root / file_info`). -/
def dirname (p : String) : String :=
  ⟨joinSlash ((splitOnSlashAux [] p.data).dropLast)⟩

/-- Python `f.readlines()` splitting (text mode already normalizes `\r\n`
to `\n`): segments keep their terminating newline. -/
def splitLinesAux (acc : List Char) : List Char → List (List Char)
  | [] => if acc.isEmpty then [] else [acc.reverse]
  | c :: cs =>
    if c = '\n' then (acc.reverse ++ ['\n']) :: splitLinesAux [] cs
    else splitLinesAux (c :: acc) cs

/-- Python `f.readlines()`. -/
def pyReadlines (s : String) : List String :=
  (splitLinesAux [] s.data).map (fun l => ⟨l⟩)

/-- Parsed JSON values (`json.loads` output). -/
inductive Json where
  | null
  | bool (b : Bool)
  | num (n : Int)
  | str (s : String)
  | arr (elems : List Json)
  | obj (fields : List (String × Json))

/-- Dictionary lookup `data[field]` (keys are unique in parsed JSON). -/
def jsonGet (fields : List (String × Json)) (key : String) : Option Json :=
  (fields.find? (fun kv => kv.1 == key)).map (·.2)

/-- The fixed identifier-key set of `_extract_ids_from_json`. -/
def id_fields : List String :=
  ["id", "key", "actor_id", "faction_id", "item_id", "event_id", "mission_id"]

/-- `str(x)` for a value passing `isinstance(x, (str, int))`
(`bool` is an `int` subclass in Python). -/
def idFieldValue : Json → Option String
  | .str s => some s
  | .num n => some (toString n)
  | .bool b => some (if b then "True" else "False")
  | _ => none

mutual

/-- `RuleChecker._extract_ids_from_json`: collect the qualifying values of
the identifier keys at this object, then recurse into every value. -/
def extract_ids_from_json : Json → List String
  | .obj fields =>
    id_fields.filterMap (fun fname => (jsonGet fields fname).bind idFieldValue)
      ++ extractIdsFields fields
  | .arr elems => extractIdsList elems
  | .null => []
  | .bool _ => []
  | .num _ => []
  | .str _ => []

/-- Recursion of `_extract_ids_from_json` over array elements. -/
def extractIdsList : List Json → List String
  | [] => []
  | j :: js => extract_ids_from_json j ++ extractIdsList js

/-- Recursion of `_extract_ids_from_json` over the values of an object. -/
def extractIdsFields : List (String × Json) → List String
  | [] => []
  | (_, v) :: rest => extract_ids_from_json v ++ extractIdsFields rest

end

/-- The fixed reference-key set of `_extract_file_references`. -/
def file_fields : List String :=
  ["index", "file", "path", "dir", "icon", "image", "script"]

/-- The extension whitelist of `_extract_file_references`. -/
def refExtensions : List String :=
  [".json", ".md", ".py", ".txt", ".png", ".jpg"]

/-- A candidate reference is kept if it contains a path separator or ends
in a whitelisted extension. -/
def refQualifies (ref : String) : Bool :=
  ref.data.contains '/' || refExtensions.any (fun e => pyEndsWith ref e)

/-- The string value of a reference key, if it qualifies. -/
def refFieldValue : Json → Option String
  | .str s => if refQualifies s then some s else none
  | _ => none

mutual

/-- `RuleChecker._extract_file_references`: collect qualifying string values
of the reference keys at this object, then recurse into every value. -/
def extract_file_references : Json → List String
  | .obj fields =>
    file_fields.filterMap (fun fname => (jsonGet fields fname).bind refFieldValue)
      ++ extractRefsFields fields
  | .arr elems => extractRefsList elems
  | .null => []
  | .bool _ => []
  | .num _ => []
  | .str _ => []

/-- Recursion of `_extract_file_references` over array elements. -/
def extractRefsList : List Json → List String
  | [] => []
  | j :: js => extract_file_references j ++ extractRefsList js

/-- Recursion of `_extract_file_references` over the values of an object. -/
def extractRefsFields : List (String × Json) → List String
  | [] => []
  | (_, v) :: rest => extract_file_references v ++ extractRefsFields rest

end

/-- The greedy `[^)]+\)` tail of the markdown link pattern: split the input
at the first `)`, requiring a nonempty group before it. -/
def takeUntilParen (l : List Char) : Option (List Char × List Char) :=
  match l.span (· ≠ ')') with
  | (before, rest) =>
    match rest with
    | ')' :: rest2 => if before.isEmpty then none else some (before, rest2)
    | _ => none

/-- Lazy scan of `.*?\]\(([^)]+)\)` after an opening `[`: extend the label
one character at a time (never across a newline, since `.` does not match
`\n`); at each `](` try the greedy nonempty group up to the first `)`. -/
def tryMatchLabel : List Char → Option (List Char × List Char)
  | [] => none
  | c :: cs =>
    if c = '\n' then none
    else if c = ']' then
      match cs with
      | '(' :: cs2 =>
        (match takeUntilParen cs2 with
         | some (grp, rest) => some (grp, rest)
         | none => tryMatchLabel cs)
      | _ => tryMatchLabel cs
    else tryMatchLabel cs

/-- Fuelled scanner for `re.findall(r'\[.*?\]\(([^)]+)\)', content)`:
non-overlapping matches, left to right, advancing one character after a
failed attempt. The fuel is the input length, which bounds the scan. -/
def mdFindAllAux : Nat → List Char → List (List Char)
  | 0, _ => []
  | _, [] => []
  | fuel + 1, c :: cs =>
    if c = '[' then
      match tryMatchLabel cs with
      | some (grp, rest) => grp :: mdFindAllAux fuel rest
      | none => mdFindAllAux fuel cs
    else mdFindAllAux fuel cs

/-- All markdown link targets of a document, in order. -/
def mdFindAll (s : String) : List String :=
  (mdFindAllAux s.data.length s.data).map (fun l => ⟨l⟩)

/-- One structured finding (`violations.append({...})` dictionaries). -/
structure Violation where
  rule : String
  type : String
  severity : String
  file : String
  other_file : Option String := none
  id : Option String := none
  reference : Option String := none
  area_status : Option String := none
  line : Option Nat := none
  message : String := ""
deriving DecidableEq, Repr

/-- Outcome of opening and reading one scanned file:
`ok raw parsed` is a successful `f.read()` together with the result of
`json.loads` (`none` models a `JSONDecodeError`); `unicodeErr` models a
`UnicodeDecodeError` on reading; `exc` models any other unexpected
exception raised while analyzing the file. -/
inductive ReadResult where
  | ok (raw : String) (parsed : Option Json)
  | unicodeErr (msg : String)
  | exc (msg : String)

/-- One entry of `self.checked_files` together with its read outcome. -/
structure ScannedFile where
  path : String
  content : ReadResult

/-- One entry of `master_index.json`'s `areas` array; `dict.get` defaults
are applied at use sites (`dir` defaults to the empty string, `status`
to `unknown`). -/
structure AreaEntry where
  dir : Option String := none
  status : Option String := none

/-- The inputs of the reference check: scan root, filesystem-existence
oracle, and the loaded master index (`none` models an absent or malformed
`master_index.json`, or one without an `areas` key, for which
`get_area_status` always answers `unknown`). -/
structure Env where
  root : String
  fsExists : String → Bool
  masterIndex : Option (List AreaEntry)

/-- `normalized_path = path.rstrip('/') + '/'` in `get_area_status`. -/
def normalizeAreaPath (path : String) : String :=
  ⟨stripTrailingSlashes path.data ++ ['/']⟩

/-- The match condition of one loop iteration of `get_area_status`. -/
def areaMatch (a : AreaEntry) (normalized : String) : Bool :=
  let d := a.dir.getD ""
  pyStartsWith normalized d || pyStartsWith d normalized

/-- `RuleChecker.get_area_status`: first matching area entry wins;
no entry, or no usable master index, yields `unknown`. -/
def get_area_status (mi : Option (List AreaEntry)) (path : String) : String :=
  match mi with
  | none => "unknown"
  | some areas =>
    match areas.find? (fun a => areaMatch a (normalizeAreaPath path)) with
    | some a => a.status.getD "unknown"
    | none => "unknown"

/-- The checker's own prior output file, skipped by both cross checks. -/
def reportFilePath : String := "system/todo/rule_check_results.json"

/-- The `duplicate_id` violation dictionary of `check_id_uniqueness`. -/
def mkDupViolation (fileInfo idValue otherFile : String) : Violation :=
  { rule := "id_management", type := "duplicate_id", severity := "high",
    file := fileInfo, other_file := some otherFile, id := some idValue,
    message := "Duplicate ID " ++ idValue ++ " found in " ++ fileInfo
      ++ " (also in " ++ otherFile ++ ")" }

/-- The `file_read_error` violation of `check_id_uniqueness`'s generic
exception handler. -/
def mkReadErrViolation (fileInfo msg : String) : Violation :=
  { rule := "id_management", type := "file_read_error", severity := "medium",
    file := fileInfo,
    message := "Error reading file " ++ fileInfo ++ ": " ++ msg }

/-- Lookup `id_value in self.id_registry` / `self.id_registry[id_value]`. -/
def regLookup (reg : List (String × String)) (i : String) : Option String :=
  (reg.find? (fun kv => kv.1 == i)).map (·.2)

/-- One iteration of the `for id_value in ids_in_file` loop: a registered
value yields a duplicate violation, a fresh one is registered. -/
def idStep (st : List (String × String) × List Violation) (fileInfo idValue : String) :
    List (String × String) × List Violation :=
  match regLookup st.1 idValue with
  | some other => (st.1, st.2 ++ [mkDupViolation fileInfo idValue other])
  | none => (st.1 ++ [(idValue, fileInfo)], st.2)

/-- One iteration of the file loop of `check_id_uniqueness`. -/
def idFileStep (st : List (String × String) × List Violation) (f : ScannedFile) :
    List (String × String) × List Violation :=
  if f.path == reportFilePath then st
  else if suffixLower f.path == ".json" then
    match f.content with
    | .ok _ (some v) =>
      (extract_ids_from_json v).foldl (fun acc i => idStep acc f.path i) st
    | .ok _ none => st
    | .unicodeErr _ => st
    | .exc m => (st.1, st.2 ++ [mkReadErrViolation f.path m])
  else st

/-- Final `(id_registry, violations)` state of `check_id_uniqueness`. -/
def idCheckState (files : List ScannedFile) : List (String × String) × List Violation :=
  files.foldl idFileStep ([], [])

/-- `RuleChecker.check_id_uniqueness`. -/
def check_id_uniqueness (files : List ScannedFile) : List Violation :=
  (idCheckState files).2

/-- The `self.id_registry` dictionary after `check_id_uniqueness`. -/
def final_id_registry (files : List ScannedFile) : List (String × String) :=
  (idCheckState files).1

/-- The template marker tested on the raw text of a `.json` file. -/
def templateMarker : String := "\"is_template\": true"

/-- `'"is_template": true' in content_text and '//' in content_text`. -/
def isTemplateText (raw : String) : Bool :=
  containsSubstr raw templateMarker && containsSubstr raw "//"

/-- `'{{' in ref and '}}' in ref` (template placeholders are skipped). -/
def placeholderRef (ref : String) : Bool :=
  containsSubstr ref "\x7b\x7b" && containsSubstr ref "\x7d\x7d"

/-- Resolution of a JSON reference: a leading `/` resolves from the repo
root after stripping leading slashes, otherwise relative to the referencing
file's directory. -/
def resolveJsonRef (root fileDir ref : String) : String :=
  if pyStartsWith ref "/" then joinPath root (dropLeadingSlashes ref)
  else joinPath fileDir ref

/-- `file_path.parent` for `file_path = repo_root / file_info`. -/
def fileDirOf (root fileInfo : String) : String :=
  dirname (joinPath root fileInfo)

/-- The message suffix attached when the referenced area is inactive. -/
def inactiveSuffixMsg (st : String) : String :=
  " (area marked as " ++ st ++ " in master_index.json)"

/-- The `broken_file_reference` violation: the area-status oracle is
consulted with the original unresolved reference string. -/
def mkBrokenRefViolation (mi : Option (List AreaEntry)) (fileInfo ref : String) : Violation :=
  let st := get_area_status mi ref
  let sev := if st == "inactive" then "low" else "high"
  let sfx := if st == "inactive" then inactiveSuffixMsg st else ""
  { rule := "crossref_redundancy_check", type := "broken_file_reference",
    severity := sev, file := fileInfo, reference := some ref,
    area_status := some st,
    message := "Broken file reference " ++ ref ++ " in " ++ fileInfo ++ sfx }

/-- The `for ref in references` loop over one parsed `.json` document. -/
def jsonRefViolations (env : Env) (fileInfo : String) (v : Json) : List Violation :=
  (extract_file_references v).foldl (fun vs ref =>
    if placeholderRef ref then vs
    else if env.fsExists (resolveJsonRef env.root (fileDirOf env.root fileInfo) ref) then vs
    else vs ++ [mkBrokenRefViolation env.masterIndex fileInfo ref]) []

/-- The `broken_markdown_reference` violation (always severity medium). -/
def mkMdViolation (fileInfo ref : String) : Violation :=
  { rule := "crossref_redundancy_check", type := "broken_markdown_reference",
    severity := "medium", file := fileInfo, reference := some ref,
    message := "Broken markdown reference " ++ ref ++ " in " ++ fileInfo }

/-- `ref.startswith(('http://', 'https://', '#'))`. -/
def mdSkipTarget (ref : String) : Bool :=
  pyStartsWith ref "http://" || pyStartsWith ref "https://" || pyStartsWith ref "#"

/-- The `for ref in md_references` loop: `ref_path = self.repo_root / ref`,
where pathlib discards the root for a target starting with a separator;
the referencing file's directory is never used. -/
def mdRefViolations (env : Env) (fileInfo raw : String) : List Violation :=
  (mdFindAll raw).foldl (fun vs ref =>
    if mdSkipTarget ref then vs
    else if env.fsExists (pathJoin env.root ref) then vs
    else vs ++ [mkMdViolation fileInfo ref]) []

/-- The `file_analysis_error` violation of `check_file_references`'s
per-file exception handler. -/
def mkAnalysisErrViolation (fileInfo msg : String) : Violation :=
  { rule := "crossref_redundancy_check", type := "file_analysis_error",
    severity := "low", file := fileInfo,
    message := "Error analyzing file " ++ fileInfo ++ ": " ++ msg }

/-- The per-file body of `check_file_references`: report-file skip, then
template skip and parse-failure skip for `.json`, markdown link scanning
for `.md`, and conversion of any exception into a low-severity violation. -/
def refFileViolations (env : Env) (f : ScannedFile) : List Violation :=
  if f.path == reportFilePath then []
  else if suffixLower f.path == ".json" then
    match f.content with
    | .ok raw parsed =>
      if isTemplateText raw then []
      else
        match parsed with
        | some v => jsonRefViolations env f.path v
        | none => []
    | .unicodeErr m => [mkAnalysisErrViolation f.path m]
    | .exc m => [mkAnalysisErrViolation f.path m]
  else if suffixLower f.path == ".md" then
    match f.content with
    | .ok raw _ => mdRefViolations env f.path raw
    | .unicodeErr m => [mkAnalysisErrViolation f.path m]
    | .exc m => [mkAnalysisErrViolation f.path m]
  else []

/-- `RuleChecker.check_file_references`. -/
def check_file_references (env : Env) (files : List ScannedFile) : List Violation :=
  files.foldl (fun vs f => vs ++ refFileViolations env f) []

/-- A PEP8 per-line violation dictionary. -/
def mkPep8Violation (t sev fileInfo : String) (lineNum : Nat) (msg : String) : Violation :=
  { rule := "pep8_compliance", type := t, severity := sev, file := fileInfo,
    line := some lineNum, message := msg }

/-- The three per-line checks of `check_pep8_compliance`, in source order. -/
def pep8LineViolations (fileInfo : String) (lineNum : Nat) (line : String) : List Violation :=
  (if (pyRstrip line).length > 79 then
    [mkPep8Violation "line_too_long" "low" fileInfo lineNum
      ("Line " ++ toString lineNum ++ " exceeds 79 characters ("
        ++ toString (pyRstrip line).length ++ " chars)")]
   else [])
  ++ (if line.data.contains '\t' then
    [mkPep8Violation "tab_usage" "medium" fileInfo lineNum
      ("Line " ++ toString lineNum ++ " uses tabs instead of spaces")]
   else [])
  ++ (if pyEndsWith line " \n" || pyEndsWith line " \r\n" then
    [mkPep8Violation "trailing_whitespace" "low" fileInfo lineNum
      ("Line " ++ toString lineNum ++ " has trailing whitespace")]
   else [])

/-- The `file_analysis_error` violation of `check_pep8_compliance`. -/
def mkPep8AnalysisErr (fileInfo msg : String) : Violation :=
  { rule := "pep8_compliance", type := "file_analysis_error", severity := "low",
    file := fileInfo,
    message := "Error analyzing Python file " ++ fileInfo ++ ": " ++ msg }

/-- The per-file body of `check_pep8_compliance` (`.py` files only;
`enumerate(lines, 1)` numbers lines from 1). -/
def pep8FileViolations (f : ScannedFile) : List Violation :=
  if suffixLower f.path == ".py" then
    match f.content with
    | .ok raw _ =>
      (pyReadlines raw).enum.foldl
        (fun vs p => vs ++ pep8LineViolations f.path (p.1 + 1) p.2) []
    | .unicodeErr m => [mkPep8AnalysisErr f.path m]
    | .exc m => [mkPep8AnalysisErr f.path m]
  else []

/-- `RuleChecker.check_pep8_compliance`. -/
def check_pep8_compliance (files : List ScannedFile) : List Violation :=
  files.foldl (fun vs f => vs ++ pep8FileViolations f) []

/-- The English technical terms probed by `check_language_compliance`. -/
def englishTerms : List String :=
  ["install", "usage", "setup", "requirements", "getting started", "installation"]

/-- The per-file body of `check_language_compliance` (only `README.md`;
read failures are silently ignored). -/
def langFileViolations (f : ScannedFile) : List Violation :=
  if f.path == "README.md" then
    match f.content with
    | .ok raw _ =>
      let content := pyLower raw
      if !(englishTerms.any (fun t => containsSubstr content t)) && content.length > 100 then
        [{ rule := "language_en", type := "missing_english_documentation",
           severity := "low", file := f.path,
           message := "Technical documentation " ++ f.path
             ++ " should include English sections for broader accessibility" }]
      else []
    | .unicodeErr _ => []
    | .exc _ => []
  else []

/-- `RuleChecker.check_language_compliance`. -/
def check_language_compliance (files : List ScannedFile) : List Violation :=
  files.foldl (fun vs f => vs ++ langFileViolations f) []

/-- The concatenation order of `run_all_checks`: id violations, then
reference, PEP8 and language violations. -/
def runAllViolations (env : Env) (files : List ScannedFile) : List Violation :=
  check_id_uniqueness files ++ check_file_references env files
    ++ check_pep8_compliance files ++ check_language_compliance files

/-- One per-rule tally bucket `{'total': 0, 'high': 0, 'medium': 0, 'low': 0}`. -/
structure SummaryEntry where
  total : Nat := 0
  high : Nat := 0
  medium : Nat := 0
  low : Nat := 0
deriving DecidableEq, Repr

/-- `entry[key] += 1`: `none` models the `KeyError` raised for a key
outside the four counters. -/
def bumpField (e : SummaryEntry) : String → Option SummaryEntry
  | "total" => some { e with total := e.total + 1 }
  | "high" => some { e with high := e.high + 1 }
  | "medium" => some { e with medium := e.medium + 1 }
  | "low" => some { e with low := e.low + 1 }
  | _ => none

/-- `violation_summary[rule]`, initializing a fresh bucket if absent. -/
def lookupRule (acc : List (String × SummaryEntry)) (rule : String) : SummaryEntry :=
  (((acc.find? (fun kv => kv.1 == rule)).map (·.2)).getD {})

/-- Write back the updated bucket for a rule. -/
def setRule (acc : List (String × SummaryEntry)) (rule : String) (e : SummaryEntry) :
    List (String × SummaryEntry) :=
  if acc.any (fun kv => kv.1 == rule) then
    acc.map (fun kv => if kv.1 == rule then (rule, e) else kv)
  else acc ++ [(rule, e)]

/-- One iteration of the tally loop of `run_all_checks`: bump `total`,
then bump the severity counter (a `KeyError` propagates as `none`). -/
def tallyStep (acc : List (String × SummaryEntry)) (v : Violation) :
    Option (List (String × SummaryEntry)) :=
  (bumpField (lookupRule acc v.rule) "total").bind (fun e1 =>
    (bumpField e1 v.severity).map (fun e2 => setRule acc v.rule e2))

/-- The tally loop from an intermediate accumulator. -/
def violationSummaryFrom (acc : List (String × SummaryEntry)) :
    List Violation → Option (List (String × SummaryEntry))
  | [] => some acc
  | v :: rest =>
    match tallyStep acc v with
    | some acc2 => violationSummaryFrom acc2 rest
    | none => none

/-- The `violation_summary` built by `run_all_checks`. -/
def violation_summary (vs : List Violation) : Option (List (String × SummaryEntry)) :=
  violationSummaryFrom [] vs

/-! ### Spec-side reformulations -/

/-- The identifier occurrences one file contributes to the ID check, in
extraction order: nothing for the skipped report file, for non-JSON files,
or for files that fail to read or parse. -/
def fileIdOccs (f : ScannedFile) : List (String × String) :=
  if f.path == reportFilePath then []
  else if suffixLower f.path == ".json" then
    match f.content with
    | .ok _ (some v) => (extract_ids_from_json v).map (fun i => (f.path, i))
    | _ => []
  else []

/-- All `(file, identifier)` occurrences in processing order. -/
def idOccurrences (files : List ScannedFile) : List (String × String) :=
  files.flatMap fileIdOccs

/-- The file of the first occurrence of an identifier value, if any. -/
def firstDecl (occs : List (String × String)) (i : String) : Option String :=
  (occs.find? (fun o => o.2 == i)).map (·.1)

/-- Spec-side description of the ID check: walking the occurrence list, an
occurrence whose value already has a first declarer among the strictly
earlier occurrences is flagged against that first declarer; a first
occurrence is never flagged. -/
def flaggedSpec : List (String × String) → List (String × String) → List Violation
  | _, [] => []
  | pre, occ :: rest =>
    (match firstDecl pre occ.2 with
     | some other => [mkDupViolation occ.1 occ.2 other]
     | none => [])
    ++ flaggedSpec (pre ++ [occ]) rest

/-- Whether a read outcome is free of unexpected exceptions. -/
def isExcFree : ReadResult → Bool
  | .exc _ => false
  | _ => true

/-- One candidate reference's contribution to `jsonRefViolations`. -/
def jsonRefItem (env : Env) (fileInfo ref : String) : List Violation :=
  if placeholderRef ref then []
  else if env.fsExists (resolveJsonRef env.root (fileDirOf env.root fileInfo) ref) then []
  else [mkBrokenRefViolation env.masterIndex fileInfo ref]

/-- One markdown target's contribution to `mdRefViolations`. -/
def mdRefItem (env : Env) (fileInfo ref : String) : List Violation :=
  if mdSkipTarget ref then []
  else if env.fsExists (pathJoin env.root ref) then []
  else [mkMdViolation fileInfo ref]

/-! ### Generic fold lemmas -/

theorem foldl_body_flatMap {α β : Type} (b : List β → α → List β) (g : α → List β)
    (hb : ∀ vs x, b vs x = vs ++ g x) :
    ∀ (xs : List α) (vs : List β), xs.foldl b vs = vs ++ xs.flatMap g := by
  intro xs
  induction xs with
  | nil => intro vs; simp
  | cons x xs ih =>
    intro vs
    rw [List.foldl_cons, hb, ih]
    simp

theorem foldl_state_shift {σ β γ : Type} (step : σ × List β → γ → σ × List β)
    (hstep : ∀ s vs x, step (s, vs) x = ((step (s, []) x).1, vs ++ (step (s, []) x).2)) :
    ∀ (xs : List γ) (s : σ) (vs : List β),
      xs.foldl step (s, vs)
        = ((xs.foldl step (s, [])).1, vs ++ (xs.foldl step (s, [])).2) := by
  intro xs
  induction xs with
  | nil => intro s vs; simp
  | cons x xs ih =>
    intro s vs
    rw [List.foldl_cons, List.foldl_cons, hstep]
    rw [ih (step (s, []) x).1 (vs ++ (step (s, []) x).2),
        ih (step (s, []) x).1 (step (s, []) x).2]
    simp

/-! ### flatMap characterizations of the checks -/

theorem check_file_references_eq (env : Env) (files : List ScannedFile) :
    check_file_references env files = files.flatMap (refFileViolations env) :=
  foldl_body_flatMap _ _ (fun _ _ => rfl) files []

theorem check_pep8_compliance_eq (files : List ScannedFile) :
    check_pep8_compliance files = files.flatMap pep8FileViolations :=
  foldl_body_flatMap _ _ (fun _ _ => rfl) files []

theorem check_language_compliance_eq (files : List ScannedFile) :
    check_language_compliance files = files.flatMap langFileViolations :=
  foldl_body_flatMap _ _ (fun _ _ => rfl) files []

theorem jsonRefViolations_eq (env : Env) (p : String) (v : Json) :
    jsonRefViolations env p v = (extract_file_references v).flatMap (jsonRefItem env p) := by
  refine foldl_body_flatMap _ _ (fun vs r => ?_) _ []
  unfold jsonRefItem
  by_cases h1 : placeholderRef r = true
  · simp [h1]
  · simp only [Bool.not_eq_true] at h1
    by_cases h2 : env.fsExists (resolveJsonRef env.root (fileDirOf env.root p) r) = true
    · simp [h1, h2]
    · simp only [Bool.not_eq_true] at h2
      simp [h1, h2]

theorem mdRefViolations_eq (env : Env) (p raw : String) :
    mdRefViolations env p raw = (mdFindAll raw).flatMap (mdRefItem env p) := by
  refine foldl_body_flatMap _ _ (fun vs r => ?_) _ []
  unfold mdRefItem
  by_cases h1 : mdSkipTarget r = true
  · simp [h1]
  · simp only [Bool.not_eq_true] at h1
    by_cases h2 : env.fsExists (pathJoin env.root r) = true
    · simp [h1, h2]
    · simp only [Bool.not_eq_true] at h2
      simp [h1, h2]

/-! ### ID-check fold machinery -/

/-- Registry effect of one `idStep`. -/
def idItemReg (reg : List (String × String)) (p i : String) : List (String × String) :=
  match regLookup reg i with
  | some _ => reg
  | none => reg ++ [(i, p)]

/-- Violation effect of one `idStep`. -/
def idItemViol (reg : List (String × String)) (p i : String) : List Violation :=
  match regLookup reg i with
  | some other => [mkDupViolation p i other]
  | none => []

theorem idStep_eq (reg : List (String × String)) (vs : List Violation) (p i : String) :
    idStep (reg, vs) p i = (idItemReg reg p i, vs ++ idItemViol reg p i) := by
  unfold idStep idItemReg idItemViol
  cases regLookup reg i <;> simp

theorem idsFoldl_shift (p : String) (ids : List String) (reg : List (String × String))
    (vs : List Violation) :
    ids.foldl (fun acc i => idStep acc p i) (reg, vs)
      = ((ids.foldl (fun acc i => idStep acc p i) (reg, [])).1,
         vs ++ (ids.foldl (fun acc i => idStep acc p i) (reg, [])).2) := by
  refine foldl_state_shift _ (fun s vs' i => ?_) ids reg vs
  rw [idStep_eq, idStep_eq]
  simp

theorem idFileStep_shift (reg : List (String × String)) (vs : List Violation)
    (f : ScannedFile) :
    idFileStep (reg, vs) f = ((idFileStep (reg, []) f).1, vs ++ (idFileStep (reg, []) f).2) := by
  obtain ⟨p, c⟩ := f
  by_cases h1 : (p == reportFilePath) = true
  · simp [idFileStep, h1]
  · simp only [Bool.not_eq_true] at h1
    by_cases h2 : (suffixLower p == ".json") = true
    · cases c with
      | ok raw parsed =>
        cases parsed with
        | some v =>
          simpa [idFileStep, h1, h2] using idsFoldl_shift p (extract_ids_from_json v) reg vs
        | none => simp [idFileStep, h1, h2]
      | unicodeErr m => simp [idFileStep, h1, h2]
      | exc m => simp [idFileStep, h1, h2]
    · simp only [Bool.not_eq_true] at h2
      simp [idFileStep, h1, h2]

theorem idFilesFoldl_shift (files : List ScannedFile) (reg : List (String × String))
    (vs : List Violation) :
    files.foldl idFileStep (reg, vs)
      = ((files.foldl idFileStep (reg, [])).1, vs ++ (files.foldl idFileStep (reg, [])).2) :=
  foldl_state_shift idFileStep (fun s vs' f => idFileStep_shift s vs' f) files reg vs

/-! ### Membership shapes of reference-check violations -/

theorem mem_jsonRefItem (env : Env) (p r : String) (w : Violation) :
    w ∈ jsonRefItem env p r ↔
      placeholderRef r = false
      ∧ env.fsExists (resolveJsonRef env.root (fileDirOf env.root p) r) = false
      ∧ w = mkBrokenRefViolation env.masterIndex p r := by
  unfold jsonRefItem
  by_cases h1 : placeholderRef r = true
  · simp [h1]
  · simp only [Bool.not_eq_true] at h1
    by_cases h2 : env.fsExists (resolveJsonRef env.root (fileDirOf env.root p) r) = true
    · simp [h1, h2]
    · simp only [Bool.not_eq_true] at h2
      simp [h1, h2]

theorem mem_mdRefItem (env : Env) (p r : String) (w : Violation) :
    w ∈ mdRefItem env p r ↔
      mdSkipTarget r = false
      ∧ env.fsExists (pathJoin env.root r) = false
      ∧ w = mkMdViolation p r := by
  unfold mdRefItem
  by_cases h1 : mdSkipTarget r = true
  · simp [h1]
  · simp only [Bool.not_eq_true] at h1
    by_cases h2 : env.fsExists (pathJoin env.root r) = true
    · simp [h1, h2]
    · simp only [Bool.not_eq_true] at h2
      simp [h1, h2]

theorem mem_jsonRefViolations (env : Env) (p : String) (v : Json) (w : Violation) :
    w ∈ jsonRefViolations env p v ↔
      ∃ r ∈ extract_file_references v,
        placeholderRef r = false
        ∧ env.fsExists (resolveJsonRef env.root (fileDirOf env.root p) r) = false
        ∧ w = mkBrokenRefViolation env.masterIndex p r := by
  rw [jsonRefViolations_eq, List.mem_flatMap]
  constructor
  · rintro ⟨r, hr, hw⟩
    exact ⟨r, hr, (mem_jsonRefItem env p r w).mp hw⟩
  · rintro ⟨r, hr, hw⟩
    exact ⟨r, hr, (mem_jsonRefItem env p r w).mpr hw⟩

theorem mem_mdRefViolations (env : Env) (p raw : String) (w : Violation) :
    w ∈ mdRefViolations env p raw ↔
      ∃ r ∈ mdFindAll raw,
        mdSkipTarget r = false
        ∧ env.fsExists (pathJoin env.root r) = false
        ∧ w = mkMdViolation p r := by
  rw [mdRefViolations_eq, List.mem_flatMap]
  constructor
  · rintro ⟨r, hr, hw⟩
    exact ⟨r, hr, (mem_mdRefItem env p r w).mp hw⟩
  · rintro ⟨r, hr, hw⟩
    exact ⟨r, hr, (mem_mdRefItem env p r w).mpr hw⟩

/-- Fields of a `broken_file_reference` violation: the area-status oracle
is consulted on the original reference string, and the severity is low
exactly when that answer is `inactive`, otherwise high. -/
theorem mkBrokenRefViolation_fields (mi : Option (List AreaEntry)) (p r : String) :
    (mkBrokenRefViolation mi p r).type = "broken_file_reference"
    ∧ (mkBrokenRefViolation mi p r).file = p
    ∧ (mkBrokenRefViolation mi p r).reference = some r
    ∧ (mkBrokenRefViolation mi p r).area_status = some (get_area_status mi r)
    ∧ (mkBrokenRefViolation mi p r).severity
        = (if get_area_status mi r = "inactive" then "low" else "high")
    ∧ (mkBrokenRefViolation mi p r).message
        = "Broken file reference " ++ r ++ " in " ++ p
          ++ (if get_area_status mi r = "inactive"
              then inactiveSuffixMsg (get_area_status mi r) else "") := by
  unfold mkBrokenRefViolation
  by_cases h : get_area_status mi r = "inactive" <;> simp [h]

/-- Every violation the reference check emits for one file names that file,
comes from a non-skipped file, and is one of the three shapes. -/
theorem refFileViolations_shape (env : Env) (f : ScannedFile) (w : Violation)
    (hw : w ∈ refFileViolations env f) :
    w.file = f.path ∧ f.path ≠ reportFilePath
    ∧ ((∃ m, w = mkAnalysisErrViolation f.path m)
       ∨ (∃ r, w = mkBrokenRefViolation env.masterIndex f.path r)
       ∨ (∃ r, w = mkMdViolation f.path r)) := by
  obtain ⟨p, c⟩ := f
  by_cases h1 : (p == reportFilePath) = true
  · simp [refFileViolations, h1] at hw
  · have h1' : p ≠ reportFilePath := by simpa using h1
    simp only [Bool.not_eq_true] at h1
    by_cases h2 : (suffixLower p == ".json") = true
    · cases c with
      | ok raw parsed =>
        by_cases ht : isTemplateText raw = true
        · simp [refFileViolations, h1, h2, ht] at hw
        · simp only [Bool.not_eq_true] at ht
          cases parsed with
          | some v =>
            simp only [refFileViolations, h1, h2, ht, Bool.false_eq_true, if_false,
              if_true] at hw
            rcases (mem_jsonRefViolations env p v w).mp hw with ⟨r, _, _, _, hwr⟩
            exact ⟨by rw [hwr]; exact (mkBrokenRefViolation_fields _ _ _).2.1, h1',
              Or.inr (Or.inl ⟨r, hwr⟩)⟩
          | none => simp [refFileViolations, h1, h2, ht] at hw
      | unicodeErr m =>
        simp only [refFileViolations, h1, h2, Bool.false_eq_true, if_false, if_true,
          List.mem_singleton] at hw
        exact ⟨by rw [hw]; rfl, h1', Or.inl ⟨m, hw⟩⟩
      | exc m =>
        simp only [refFileViolations, h1, h2, Bool.false_eq_true, if_false, if_true,
          List.mem_singleton] at hw
        exact ⟨by rw [hw]; rfl, h1', Or.inl ⟨m, hw⟩⟩
    · simp only [Bool.not_eq_true] at h2
      by_cases h3 : (suffixLower p == ".md") = true
      · cases c with
        | ok raw parsed =>
          simp only [refFileViolations, h1, h2, h3, Bool.false_eq_true, if_false,
            if_true] at hw
          rcases (mem_mdRefViolations env p raw w).mp hw with ⟨r, _, _, _, hwr⟩
          exact ⟨by rw [hwr]; rfl, h1', Or.inr (Or.inr ⟨r, hwr⟩)⟩
        | unicodeErr m =>
          simp only [refFileViolations, h1, h2, h3, Bool.false_eq_true, if_false, if_true,
            List.mem_singleton] at hw
          exact ⟨by rw [hw]; rfl, h1', Or.inl ⟨m, hw⟩⟩
        | exc m =>
          simp only [refFileViolations, h1, h2, h3, Bool.false_eq_true, if_false, if_true,
            List.mem_singleton] at hw
          exact ⟨by rw [hw]; rfl, h1', Or.inl ⟨m, hw⟩⟩
      · simp only [Bool.not_eq_true] at h3
        simp [refFileViolations, h1, h2, h3] at hw

/-! ### Registry as a first-seen map -/

theorem regLookup_append_single (reg : List (String × String)) (i0 p0 i : String) :
    regLookup (reg ++ [(i0, p0)]) i
      = (regLookup reg i).or (if i0 = i then some p0 else none) := by
  unfold regLookup
  rw [List.find?_append]
  cases h : List.find? (fun kv => kv.1 == i) reg with
  | some kv => simp [Option.or]
  | none =>
    by_cases hi : i0 = i
    · simp [List.find?, hi, Option.or]
    · have : (i0 == i) = false := by simpa using hi
      simp [List.find?, this, hi, Option.or]

theorem firstDecl_append_single (pre : List (String × String)) (p0 i0 i : String) :
    firstDecl (pre ++ [(p0, i0)]) i
      = (firstDecl pre i).or (if i0 = i then some p0 else none) := by
  unfold firstDecl
  rw [List.find?_append]
  cases h : List.find? (fun o => o.2 == i) pre with
  | some o => simp [Option.or]
  | none =>
    by_cases hi : i0 = i
    · simp [List.find?, hi, Option.or]
    · have : (i0 == i) = false := by simpa using hi
      simp [List.find?, this, hi, Option.or]

/-- Invariant transport for one occurrence: if the registry realizes the
first-declarer map of the prefix, it still does after processing one more
occurrence, with the occurrence appended to the prefix. -/
theorem occ_invariant_step (reg : List (String × String)) (pre : List (String × String))
    (occ : String × String) (hinv : ∀ i, regLookup reg i = firstDecl pre i) :
    ∀ i, regLookup (idItemReg reg occ.1 occ.2) i = firstDecl (pre ++ [occ]) i := by
  intro i
  unfold idItemReg
  cases h : regLookup reg occ.2 with
  | some other =>
    rw [firstDecl_append_single]
    rw [← hinv i]
    cases hr : regLookup reg i with
    | some x => simp [Option.or]
    | none =>
      have hne : occ.2 ≠ i := by
        intro he
        rw [he] at h
        rw [h] at hr
        exact Option.noConfusion hr
      simp [Option.or, hne]
  | none =>
    rw [regLookup_append_single, firstDecl_append_single, hinv i]

theorem flaggedSpec_cons (pre : List (String × String)) (occ : String × String)
    (rest : List (String × String)) :
    flaggedSpec pre (occ :: rest)
      = (match firstDecl pre occ.2 with
         | some other => [mkDupViolation occ.1 occ.2 other]
         | none => [])
        ++ flaggedSpec (pre ++ [occ]) rest := rfl

/-- Core refinement of the ID-uniqueness fold: starting from a registry
realizing the first-declarer map of `pre`, processing `occs` appends
exactly the spec-side flagged violations, and the final registry realizes
the first-declarer map of `pre ++ occs`. -/
theorem occFold_spec :
    ∀ (occs : List (String × String)) (reg : List (String × String))
      (vs : List Violation) (pre : List (String × String)),
      (∀ i, regLookup reg i = firstDecl pre i) →
      (occs.foldl (fun acc o => idStep acc o.1 o.2) (reg, vs)).2
          = vs ++ flaggedSpec pre occs
      ∧ ∀ i, regLookup ((occs.foldl (fun acc o => idStep acc o.1 o.2) (reg, vs)).1) i
          = firstDecl (pre ++ occs) i := by
  intro occs
  induction occs with
  | nil =>
    intro reg vs pre hinv
    refine ⟨by simp [flaggedSpec], ?_⟩
    intro i
    simpa using hinv i
  | cons occ rest ih =>
    intro reg vs pre hinv
    have hstep : idStep (reg, vs) occ.1 occ.2
        = (idItemReg reg occ.1 occ.2, vs ++ idItemViol reg occ.1 occ.2) :=
      idStep_eq reg vs occ.1 occ.2
    have hinv' := occ_invariant_step reg pre occ hinv
    have hrec := ih (idItemReg reg occ.1 occ.2) (vs ++ idItemViol reg occ.1 occ.2)
      (pre ++ [occ]) hinv'
    have hflag : flaggedSpec pre (occ :: rest)
        = idItemViol reg occ.1 occ.2 ++ flaggedSpec (pre ++ [occ]) rest := by
      rw [flaggedSpec_cons, ← hinv occ.2]
      cases h : regLookup reg occ.2 <;> simp [idItemViol, h]
    constructor
    · rw [List.foldl_cons, hstep, hrec.1, hflag, List.append_assoc]
    · intro i
      rw [List.foldl_cons, hstep]
      have := hrec.2 i
      rw [this]
      simp
/-- Per-file reduction of the ID check to the flat occurrence fold, valid
when the file raised no unexpected exception. -/
theorem idFileStep_eq_occFold (f : ScannedFile) (hf : isExcFree f.content = true)
    (st : List (String × String) × List Violation) :
    idFileStep st f = (fileIdOccs f).foldl (fun acc o => idStep acc o.1 o.2) st := by
  obtain ⟨p, c⟩ := f
  obtain ⟨reg, vs⟩ := st
  by_cases h1 : (p == reportFilePath) = true
  · simp [idFileStep, fileIdOccs, h1]
  · simp only [Bool.not_eq_true] at h1
    by_cases h2 : (suffixLower p == ".json") = true
    · cases c with
      | ok raw parsed =>
        cases parsed with
        | some v =>
          simp only [idFileStep, fileIdOccs, h1, h2, Bool.false_eq_true, if_false, if_true]
          rw [List.foldl_map]
        | none => simp [idFileStep, fileIdOccs, h1, h2]
      | unicodeErr m => simp [idFileStep, fileIdOccs, h1, h2]
      | exc m => exact absurd hf (by simp [isExcFree])
    · simp only [Bool.not_eq_true] at h2
      simp [idFileStep, fileIdOccs, h1, h2]

/-- Batch fold over files equals the fold over flattened occurrences, when
no file raised an unexpected exception. -/
theorem foldl_idFileStep_eq_occFold :
    ∀ (files : List ScannedFile), (∀ f ∈ files, isExcFree f.content = true) →
      ∀ (st : List (String × String) × List Violation),
        files.foldl idFileStep st
          = (files.flatMap fileIdOccs).foldl (fun acc o => idStep acc o.1 o.2) st := by
  intro files
  induction files with
  | nil => intro _ st; simp
  | cons f fs ih =>
    intro h st
    rw [List.foldl_cons, List.flatMap_cons, List.foldl_append,
      idFileStep_eq_occFold f (h f (List.mem_cons_self f fs)) st]
    exact ih (fun x hx => h x (List.mem_cons_of_mem f hx)) _

/-- Batch reduction of the ID check to the flat occurrence fold. -/
theorem idCheckState_eq_occFold (files : List ScannedFile)
    (h : ∀ f ∈ files, isExcFree f.content = true) :
    idCheckState files
      = (idOccurrences files).foldl (fun acc o => idStep acc o.1 o.2) ([], []) :=
  foldl_idFileStep_eq_occFold files h ([], [])

/-! ### Step lemmas for skipped and failing files -/

theorem idFileStep_parse_failure (st : List (String × String) × List Violation)
    (p raw : String) :
    idFileStep st ⟨p, .ok raw none⟩ = st := by
  obtain ⟨reg, vs⟩ := st
  by_cases h1 : (p == reportFilePath) = true
  · simp [idFileStep, h1]
  · simp only [Bool.not_eq_true] at h1
    by_cases h2 : (suffixLower p == ".json") = true
    · simp [idFileStep, h1, h2]
    · simp only [Bool.not_eq_true] at h2
      simp [idFileStep, h1, h2]

theorem idFileStep_exc (st : List (String × String) × List Violation) (p m : String)
    (hp : p ≠ reportFilePath) (hs : suffixLower p = ".json") :
    idFileStep st ⟨p, .exc m⟩ = (st.1, st.2 ++ [mkReadErrViolation p m]) := by
  obtain ⟨reg, vs⟩ := st
  have hp' : (p == reportFilePath) = false := by simpa using hp
  have hs' : (suffixLower p == ".json") = true := by simpa using hs
  simp [idFileStep, hp', hs']

theorem refFileViolations_exc (env : Env) (p m : String)
    (hp : p ≠ reportFilePath) (hs : suffixLower p = ".json") :
    refFileViolations env ⟨p, .exc m⟩ = [mkAnalysisErrViolation p m] := by
  have hp' : (p == reportFilePath) = false := by simpa using hp
  have hs' : (suffixLower p == ".json") = true := by simpa using hs
  simp [refFileViolations, hp', hs']

theorem refFileViolations_template (env : Env) (p raw : String) (parsed : Option Json)
    (hs : suffixLower p = ".json") (ht : isTemplateText raw = true) :
    refFileViolations env ⟨p, .ok raw parsed⟩ = [] := by
  by_cases h1 : (p == reportFilePath) = true
  · simp [refFileViolations, h1]
  · simp only [Bool.not_eq_true] at h1
    have hs' : (suffixLower p == ".json") = true := by simpa using hs
    simp [refFileViolations, h1, hs', ht]

theorem refFileViolations_parse_failure (env : Env) (p raw : String)
    (hs : suffixLower p = ".json") :
    refFileViolations env ⟨p, .ok raw none⟩ = [] := by
  by_cases h1 : (p == reportFilePath) = true
  · simp [refFileViolations, h1]
  · simp only [Bool.not_eq_true] at h1
    have hs' : (suffixLower p == ".json") = true := by simpa using hs
    by_cases ht : isTemplateText raw = true
    · simp [refFileViolations, h1, hs', ht]
    · simp only [Bool.not_eq_true] at ht
      simp [refFileViolations, h1, hs', ht]

theorem check_file_references_append (env : Env) (pre post : List ScannedFile)
    (f : ScannedFile) :
    check_file_references env (pre ++ f :: post)
      = check_file_references env pre ++ refFileViolations env f
        ++ check_file_references env post := by
  simp [check_file_references_eq, List.append_assoc]

theorem check_id_uniqueness_skip (pre post : List ScannedFile) (f : ScannedFile)
    (hf : ∀ st, idFileStep st f = st) :
    check_id_uniqueness (pre ++ f :: post) = check_id_uniqueness (pre ++ post) := by
  unfold check_id_uniqueness idCheckState
  rw [List.foldl_append, List.foldl_cons, hf, ← List.foldl_append]

/-! ### The claims -/

/-- **C1.** For every batch of files none of which raised an unexpected
exception (in particular, for every set of well-formed JSON files in
traversal order), the ID-uniqueness check flags exactly the second and
subsequent occurrences of each identifier value — described by
`flaggedSpec`, which flags an occurrence if and only if its value has a
first declarer among strictly earlier occurrences, naming that first
declarer as `other_file`, and never flags a first occurrence — and the
final registry maps each identifier value to its first-declaring file
(a later duplicate never updates the mapping). -/
theorem claim_C1 (files : List ScannedFile)
    (h : ∀ f ∈ files, isExcFree f.content = true) :
    check_id_uniqueness files = flaggedSpec [] (idOccurrences files)
    ∧ ∀ i, regLookup (final_id_registry files) i = firstDecl (idOccurrences files) i := by
  have hocc := occFold_spec (idOccurrences files) [] [] [] (fun i => rfl)
  constructor
  · unfold check_id_uniqueness
    rw [idCheckState_eq_occFold files h]
    simpa using hocc.1
  · intro i
    unfold final_id_registry
    rw [idCheckState_eq_occFold files h]
    simpa using hocc.2 i

/-- Concrete input for the C1 witness: two files declaring the same id. -/
def c1Files : List ScannedFile :=
  [⟨"a/b.json", .ok "" (some (.obj [("id", .str "x1")]))⟩,
   ⟨"a/c.json", .ok "" (some (.obj [("id", .str "x1")]))⟩]

/-- Witness for C1 at a concrete two-file batch. -/
theorem claim_C1_witness :
    (∀ f ∈ c1Files, isExcFree f.content = true)
    ∧ (check_id_uniqueness c1Files = flaggedSpec [] (idOccurrences c1Files)
       ∧ ∀ i, regLookup (final_id_registry c1Files) i
           = firstDecl (idOccurrences c1Files) i) :=
  ⟨by decide, claim_C1 c1Files (by decide)⟩

/-- **C2 (amended).** An unexpected error while analyzing one `.json` file
is captured as a violation scoped to that file and the rest of the batch is
processed unchanged — but the ID-uniqueness check emits it with severity
`medium` (type `file_read_error`), while only the reference check emits
severity `low` (type `file_analysis_error`). -/
theorem claim_C2 (env : Env) (pre post : List ScannedFile) (p m : String)
    (hp : p ≠ reportFilePath) (hs : suffixLower p = ".json") :
    check_id_uniqueness (pre ++ ⟨p, .exc m⟩ :: post)
      = check_id_uniqueness pre ++ mkReadErrViolation p m ::
          (check_id_uniqueness (pre ++ post)).drop (check_id_uniqueness pre).length
    ∧ (mkReadErrViolation p m).severity = "medium"
    ∧ check_file_references env (pre ++ ⟨p, .exc m⟩ :: post)
      = check_file_references env pre ++ mkAnalysisErrViolation p m ::
          check_file_references env post
    ∧ (mkAnalysisErrViolation p m).severity = "low" := by
  refine ⟨?_, rfl, ?_, rfl⟩
  · unfold check_id_uniqueness idCheckState
    rw [List.foldl_append, List.foldl_cons, idFileStep_exc _ p m hp hs]
    have hS := idFilesFoldl_shift post (List.foldl idFileStep ([], []) pre).1
      ((List.foldl idFileStep ([], []) pre).2 ++ [mkReadErrViolation p m])
    rw [hS]
    have hPP : (List.foldl idFileStep ([], []) (pre ++ post)).2
        = (List.foldl idFileStep ([], []) pre).2
          ++ (post.foldl idFileStep ((List.foldl idFileStep ([], []) pre).1, [])).2 := by
      rw [List.foldl_append]
      have := idFilesFoldl_shift post (List.foldl idFileStep ([], []) pre).1
        (List.foldl idFileStep ([], []) pre).2
      rw [Prod.mk.eta] at this
      rw [this]
    rw [hPP, List.drop_left]
    simp
  · rw [check_file_references_append, refFileViolations_exc env p m hp hs]
    simp [check_file_references_eq]

/-- Counterexample to C2 as stated: an unexpected read error in the
ID-uniqueness check yields a `medium`-severity violation, not `low`. -/
theorem claim_C2_counterexample :
    (check_id_uniqueness [⟨"a.json", .exc "boom"⟩]).map Violation.severity = ["medium"]
    ∧ ("medium" : String) ≠ "low" :=
  ⟨by decide, by decide⟩

/-- Witness for C2 at a concrete batch. -/
theorem claim_C2_witness :
    ("a.json" : String) ≠ reportFilePath ∧ suffixLower "a.json" = ".json"
    ∧ (check_id_uniqueness ([] ++ ⟨"a.json", .exc "boom"⟩ :: [⟨"b.md", .ok "t" none⟩])
        = check_id_uniqueness []
          ++ mkReadErrViolation "a.json" "boom" ::
            (check_id_uniqueness ([] ++ [⟨"b.md", .ok "t" none⟩])).drop
              (check_id_uniqueness []).length
       ∧ (mkReadErrViolation "a.json" "boom").severity = "medium"
       ∧ check_file_references ⟨"R", fun _ => false, none⟩
            ([] ++ ⟨"a.json", .exc "boom"⟩ :: [⟨"b.md", .ok "t" none⟩])
          = check_file_references ⟨"R", fun _ => false, none⟩ []
            ++ mkAnalysisErrViolation "a.json" "boom" ::
              check_file_references ⟨"R", fun _ => false, none⟩ [⟨"b.md", .ok "t" none⟩]
       ∧ (mkAnalysisErrViolation "a.json" "boom").severity = "low") :=
  ⟨by decide, by decide,
    claim_C2 ⟨"R", fun _ => false, none⟩ [] [⟨"b.md", .ok "t" none⟩] "a.json" "boom"
      (by decide) (by decide)⟩

/-- **C7.** A `.json` file whose raw text contains both the template marker
and JSON-comment syntax is skipped entirely by the reference check: it
contributes no violations, and the batch result is as if it were absent. -/
theorem claim_C7 (env : Env) (pre post : List ScannedFile) (p raw : String)
    (parsed : Option Json) (hs : suffixLower p = ".json")
    (hmark : containsSubstr raw templateMarker = true)
    (hcomment : containsSubstr raw "//" = true) :
    refFileViolations env ⟨p, .ok raw parsed⟩ = []
    ∧ check_file_references env (pre ++ ⟨p, .ok raw parsed⟩ :: post)
        = check_file_references env (pre ++ post) := by
  have ht : isTemplateText raw = true := by
    unfold isTemplateText
    rw [hmark, hcomment]
    rfl
  have h0 := refFileViolations_template env p raw parsed hs ht
  refine ⟨h0, ?_⟩
  rw [check_file_references_append, h0]
  rw [check_file_references_eq env (pre ++ post)]
  simp [check_file_references_eq]

/-- Witness for C7 at a concrete template file. -/
theorem claim_C7_witness :
    suffixLower "t.json" = ".json"
    ∧ containsSubstr "\"is_template\": true // c" templateMarker = true
    ∧ containsSubstr "\"is_template\": true // c" "//" = true
    ∧ (refFileViolations ⟨"R", fun _ => false, none⟩
          ⟨"t.json", .ok "\"is_template\": true // c" none⟩ = []
       ∧ check_file_references ⟨"R", fun _ => false, none⟩
            ([] ++ ⟨"t.json", .ok "\"is_template\": true // c" none⟩ :: [])
          = check_file_references ⟨"R", fun _ => false, none⟩ ([] ++ [])) :=
  ⟨by decide, by decide, by decide,
    claim_C7 ⟨"R", fun _ => false, none⟩ [] [] "t.json" "\"is_template\": true // c" none
      (by decide) (by decide) (by decide)⟩

/-- **C8.** A scanned `.json` file whose text fails to parse is silently
skipped by both the ID-uniqueness check and the reference check: the batch
results are as if the file were absent. -/
theorem claim_C8 (env : Env) (pre post : List ScannedFile) (p raw : String)
    (hs : suffixLower p = ".json") :
    check_id_uniqueness (pre ++ ⟨p, .ok raw none⟩ :: post)
        = check_id_uniqueness (pre ++ post)
    ∧ check_file_references env (pre ++ ⟨p, .ok raw none⟩ :: post)
        = check_file_references env (pre ++ post) := by
  constructor
  · exact check_id_uniqueness_skip pre post _ (fun st => idFileStep_parse_failure st p raw)
  · rw [check_file_references_append, refFileViolations_parse_failure env p raw hs]
    rw [check_file_references_eq env (pre ++ post)]
    simp [check_file_references_eq]

/-- Witness for C8 at a concrete malformed file. -/
theorem claim_C8_witness :
    suffixLower "bad.json" = ".json"
    ∧ (check_id_uniqueness
          ([⟨"a.json", .ok "" (some (.obj [("id", .str "z")]))⟩]
            ++ ⟨"bad.json", .ok "not json" none⟩ :: [])
        = check_id_uniqueness ([⟨"a.json", .ok "" (some (.obj [("id", .str "z")]))⟩] ++ [])
       ∧ check_file_references ⟨"R", fun _ => false, none⟩
            ([⟨"a.json", .ok "" (some (.obj [("id", .str "z")]))⟩]
              ++ ⟨"bad.json", .ok "not json" none⟩ :: [])
          = check_file_references ⟨"R", fun _ => false, none⟩
              ([⟨"a.json", .ok "" (some (.obj [("id", .str "z")]))⟩] ++ [])) :=
  ⟨by decide,
    claim_C8 ⟨"R", fun _ => false, none⟩ [⟨"a.json", .ok "" (some (.obj [("id", .str "z")]))⟩]
      [] "bad.json" "not json" (by decide)⟩

/-- **C3 (amended).** For every broken JSON reference the violation
severity is low exactly when the area-status oracle answers `inactive`
for the *reference string* (not for the referencing file's location),
otherwise high; broken Markdown references are always severity medium. -/
theorem claim_C3 (env : Env) (files : List ScannedFile) :
    ∀ w ∈ check_file_references env files,
      (w.type = "broken_file_reference" →
        ∃ r, w.reference = some r
          ∧ w.severity
              = (if get_area_status env.masterIndex r = "inactive" then "low" else "high"))
      ∧ (w.type = "broken_markdown_reference" → w.severity = "medium") := by
  intro w hw
  rw [check_file_references_eq] at hw
  rcases List.mem_flatMap.mp hw with ⟨f, _, hwf⟩
  rcases refFileViolations_shape env f w hwf with ⟨-, -, hshape⟩
  rcases hshape with ⟨m, rfl⟩ | ⟨r, rfl⟩ | ⟨r, rfl⟩
  · exact ⟨fun ht => by simp [mkAnalysisErrViolation] at ht,
      fun ht => by simp [mkAnalysisErrViolation] at ht⟩
  · refine ⟨fun _ => ⟨r, (mkBrokenRefViolation_fields _ _ _).2.2.1,
      (mkBrokenRefViolation_fields _ _ _).2.2.2.2.1⟩,
      fun ht => by simp [mkBrokenRefViolation] at ht⟩
  · exact ⟨fun ht => by simp [mkMdViolation] at ht, fun _ => rfl⟩

/-- Concrete master index for the C3 counterexample. -/
def c3env : Env :=
  ⟨"R", fun _ => false, some [{ dir := some "inactive_area/", status := some "inactive" }]⟩

/-- Concrete referencing file for the C3 counterexample: it lies inside
the inactive area but references a path outside any declared area. -/
def c3file : ScannedFile :=
  ⟨"inactive_area/a.json", .ok "x" (some (.obj [("path", .str "other/missing.json")]))⟩

/-- Counterexample to C3 as stated: the referencing file lies under a
directory whose matching area entry is `inactive`, yet the broken
reference is emitted with severity `high`, because the oracle is asked
about the reference string, not the referencing file's location. -/
theorem claim_C3_counterexample :
    get_area_status c3env.masterIndex "inactive_area/a.json" = "inactive"
    ∧ (check_file_references c3env [c3file]).map Violation.severity = ["high"]
    ∧ ("high" : String) ≠ "low" :=
  ⟨by decide, by decide, by decide⟩

/-- Witness for the amended C3 at the concrete input. -/
theorem claim_C3_witness :
    mkBrokenRefViolation c3env.masterIndex "inactive_area/a.json" "other/missing.json"
        ∈ check_file_references c3env [c3file]
    ∧ (((mkBrokenRefViolation c3env.masterIndex "inactive_area/a.json"
            "other/missing.json").type = "broken_file_reference" →
        ∃ r, (mkBrokenRefViolation c3env.masterIndex "inactive_area/a.json"
                "other/missing.json").reference = some r
          ∧ (mkBrokenRefViolation c3env.masterIndex "inactive_area/a.json"
                "other/missing.json").severity
              = (if get_area_status c3env.masterIndex r = "inactive" then "low" else "high"))
       ∧ ((mkBrokenRefViolation c3env.masterIndex "inactive_area/a.json"
            "other/missing.json").type = "broken_markdown_reference" →
          (mkBrokenRefViolation c3env.masterIndex "inactive_area/a.json"
            "other/missing.json").severity = "medium")) :=
  ⟨by decide, claim_C3 c3env [c3file] _ (by decide)⟩

/-- **C4.** A broken JSON reference is emitted exactly for each extracted,
non-placeholder reference whose resolved path does not exist; the stored
area status is the oracle's answer on the original unresolved reference
string, severity is low with the explanatory suffix when that answer is
`inactive` and high otherwise. -/
theorem claim_C4 (env : Env) (p : String) (v : Json) (w : Violation) (r : String) :
    (w ∈ jsonRefViolations env p v ↔
      ∃ t ∈ extract_file_references v,
        placeholderRef t = false
        ∧ env.fsExists (resolveJsonRef env.root (fileDirOf env.root p) t) = false
        ∧ w = mkBrokenRefViolation env.masterIndex p t)
    ∧ (mkBrokenRefViolation env.masterIndex p r).area_status
        = some (get_area_status env.masterIndex r)
    ∧ (mkBrokenRefViolation env.masterIndex p r).severity
        = (if get_area_status env.masterIndex r = "inactive" then "low" else "high")
    ∧ (mkBrokenRefViolation env.masterIndex p r).message
        = "Broken file reference " ++ r ++ " in " ++ p
          ++ (if get_area_status env.masterIndex r = "inactive"
              then inactiveSuffixMsg (get_area_status env.masterIndex r) else "") :=
  ⟨mem_jsonRefViolations env p v w,
    (mkBrokenRefViolation_fields env.masterIndex p r).2.2.2.1,
    (mkBrokenRefViolation_fields env.masterIndex p r).2.2.2.2.1,
    (mkBrokenRefViolation_fields env.masterIndex p r).2.2.2.2.2⟩

theorem mdItem_map_indep (env : Env) (p1 p2 r : String) :
    (mdRefItem env p1 r).map (fun w => (w.reference, w.severity))
      = (mdRefItem env p2 r).map (fun w => (w.reference, w.severity)) := by
  unfold mdRefItem
  by_cases h1 : mdSkipTarget r = true
  · simp [h1]
  · simp only [Bool.not_eq_true] at h1
    by_cases h2 : env.fsExists (pathJoin env.root r) = true
    · simp [h1, h2]
    · simp only [Bool.not_eq_true] at h2
      simp [h1, h2, mkMdViolation]

theorem map_flatMap_indep {α β γ : Type} (g : β → γ) (f1 f2 : α → List β)
    (h : ∀ a, (f1 a).map g = (f2 a).map g) :
    ∀ l : List α, (l.flatMap f1).map g = (l.flatMap f2).map g := by
  intro l
  induction l with
  | nil => simp
  | cons a l ih => simp only [List.flatMap_cons, List.map_append, h a, ih]

/-- **C5 (amended).** A JSON reference with a leading separator resolves
against the scan root (after stripping leading separators), every other
JSON reference resolves against the referencing file's own directory; a
Markdown target not starting with `http://`, `https://` or `#` resolves
through `repo_root / target`, which anchors at the scan root only when the
target does not itself start with a separator — an absolute target
replaces the root (pathlib semantics) — and in either case the Markdown
outcome never depends on the referencing file's directory. -/
theorem claim_C5 (root fileDir ref : String) (env : Env) (p1 p2 raw t : String) :
    (pyStartsWith ref "/" = true →
      resolveJsonRef root fileDir ref = joinPath root (dropLeadingSlashes ref))
    ∧ (pyStartsWith ref "/" = false →
      resolveJsonRef root fileDir ref = joinPath fileDir ref)
    ∧ (pyStartsWith t "/" = false → pathJoin env.root t = joinPath env.root t)
    ∧ (pyStartsWith t "/" = true → pathJoin env.root t = t)
    ∧ (mdRefViolations env p1 raw).map (fun w => (w.reference, w.severity))
        = (mdRefViolations env p2 raw).map (fun w => (w.reference, w.severity))
    ∧ ∀ w ∈ mdRefViolations env p1 raw,
        ∃ u ∈ mdFindAll raw,
          mdSkipTarget u = false
          ∧ env.fsExists (pathJoin env.root u) = false
          ∧ w = mkMdViolation p1 u := by
  refine ⟨fun h => by simp [resolveJsonRef, h], fun h => by simp [resolveJsonRef, h],
    fun h => by simp [pathJoin, h], fun h => by simp [pathJoin, h], ?_, ?_⟩
  · rw [mdRefViolations_eq, mdRefViolations_eq]
    exact map_flatMap_indep _ _ _ (fun r => mdItem_map_indep env p1 p2 r) (mdFindAll raw)
  · intro w hw
    exact (mem_mdRefViolations env p1 raw w).mp hw

/-- Concrete environment for the C5 counterexample: exactly the
root-joined form of the markdown target exists. -/
def c5env : Env :=
  ⟨"R", fun p => p == joinPath "R" "/docs/x.md", none⟩

/-- Counterexample to C5 as stated: the markdown target `/docs/x.md`
starts with a separator, so `repo_root / target` discards the root; even
though the target resolved against the scan root exists, the check still
emits a broken-markdown violation for it — the target was not resolved
against the scan root. -/
theorem claim_C5_counterexample :
    c5env.fsExists (joinPath c5env.root "/docs/x.md") = true
    ∧ (mdRefViolations c5env "n.md" "[x](/docs/x.md)").map Violation.reference
        = [some "/docs/x.md"] :=
  ⟨by decide, by decide⟩

theorem dropWhile_head?_false {α : Type} (p : α → Bool) :
    ∀ (m : List α) (c : α), (m.dropWhile p).head? = some c → p c = false := by
  intro m
  induction m with
  | nil => intro c h; simp [List.dropWhile] at h
  | cons a m ih =>
    intro c h
    rw [List.dropWhile_cons] at h
    by_cases hp : p a = true
    · rw [if_pos hp] at h
      exact ih c h
    · rw [if_neg hp] at h
      simp only [List.head?_cons, Option.some.injEq] at h
      rw [← h]
      simpa using hp

/-- The normalized candidate ends in exactly one separator. -/
theorem normalizeAreaPath_one_trailing (path : String) :
    ∃ l, (normalizeAreaPath path).data = l ++ ['/'] ∧ l.getLast? ≠ some '/' := by
  refine ⟨stripTrailingSlashes path.data, rfl, ?_⟩
  unfold stripTrailingSlashes
  rw [List.getLast?_reverse]
  intro h
  have := dropWhile_head?_false (fun c => c = '/') path.data.reverse '/' h
  simp at this

theorem find?_first {α : Type} (p : α → Bool) :
    ∀ (l1 : List α) (a : α) (l2 : List α), (∀ b ∈ l1, p b = false) → p a = true →
      (l1 ++ a :: l2).find? p = some a := by
  intro l1
  induction l1 with
  | nil =>
    intro a l2 _ ha
    simpa using List.find?_cons_of_pos l2 ha
  | cons b l1 ih =>
    intro a l2 h1 ha
    rw [List.cons_append, List.find?_cons_of_neg]
    · exact ih a l2 (fun x hx => h1 x (List.mem_cons_of_mem b hx)) ha
    · simp [h1 b (List.mem_cons_self b l1)]

/-- **C6.** `get_area_status` normalizes the candidate to exactly one
trailing separator, answers with the status (defaulting to `unknown`) of
the first entry, in registry order, matching by symmetric prefix
containment, and answers `unknown` when no entry matches or when the
registry is absent or malformed; being a total function, it never raises. -/
theorem claim_C6 (mi : Option (List AreaEntry)) (path : String)
    (areas l1 l2 : List AreaEntry) (a : AreaEntry) :
    get_area_status none path = "unknown"
    ∧ (∃ l, (normalizeAreaPath path).data = l ++ ['/'] ∧ l.getLast? ≠ some '/')
    ∧ (mi = some (l1 ++ a :: l2) →
        (∀ b ∈ l1, areaMatch b (normalizeAreaPath path) = false) →
        areaMatch a (normalizeAreaPath path) = true →
        get_area_status mi path = a.status.getD "unknown")
    ∧ (mi = some areas →
        (∀ b ∈ areas, areaMatch b (normalizeAreaPath path) = false) →
        get_area_status mi path = "unknown") := by
  refine ⟨rfl, normalizeAreaPath_one_trailing path, ?_, ?_⟩
  · rintro rfl hl1 ha
    simp only [get_area_status]
    rw [find?_first _ l1 a l2 hl1 ha]
  · rintro rfl hall
    simp only [get_area_status]
    have hnone : List.find? (fun b => areaMatch b (normalizeAreaPath path)) areas = none :=
      List.find?_eq_none.mpr (fun x hx => by simp [hall x hx])
    rw [hnone]

/-! ### Invariants for the report-file skip and for severities -/

/-- Invariant of the ID-check state: no registry entry and no violation
names the checker's own report file. -/
def idInv (st : List (String × String) × List Violation) : Prop :=
  (∀ e ∈ st.1, e.2 ≠ reportFilePath)
  ∧ ∀ w ∈ st.2, w.file ≠ reportFilePath ∧ w.other_file ≠ some reportFilePath

theorem regLookup_mem (reg : List (String × String)) (i other : String)
    (h : regLookup reg i = some other) : ∃ kv ∈ reg, kv.2 = other := by
  unfold regLookup at h
  cases hf : List.find? (fun kv => kv.1 == i) reg with
  | none => rw [hf] at h; simp at h
  | some kv =>
    rw [hf] at h
    simp at h
    exact ⟨kv, List.mem_of_find?_eq_some hf, h⟩

theorem idStep_inv (st : List (String × String) × List Violation) (p i : String)
    (hp : p ≠ reportFilePath) (h : idInv st) : idInv (idStep st p i) := by
  obtain ⟨reg, vs⟩ := st
  obtain ⟨hreg, hv⟩ := h
  rw [idStep_eq]
  cases hl : regLookup reg i with
  | some other =>
    constructor
    · intro e he
      simp only [idItemReg, hl] at he
      exact hreg e he
    · intro w hw
      simp only [idItemViol, hl] at hw
      rcases List.mem_append.mp hw with hw | hw
      · exact hv w hw
      · simp only [List.mem_singleton] at hw
        subst hw
        rcases regLookup_mem reg i other hl with ⟨kv, hkv, rfl⟩
        exact ⟨hp, by simpa [mkDupViolation] using hreg kv hkv⟩
  | none =>
    constructor
    · intro e he
      simp only [idItemReg, hl] at he
      rcases List.mem_append.mp he with he | he
      · exact hreg e he
      · simp only [List.mem_singleton] at he
        subst he
        exact hp
    · intro w hw
      simp only [idItemViol, hl, List.append_nil] at hw
      exact hv w hw

theorem idsFoldl_inv (p : String) (hp : p ≠ reportFilePath) :
    ∀ (ids : List String) (st : List (String × String) × List Violation),
      idInv st → idInv (ids.foldl (fun acc i => idStep acc p i) st) := by
  intro ids
  induction ids with
  | nil => intro st h; simpa using h
  | cons i ids ih =>
    intro st h
    rw [List.foldl_cons]
    exact ih _ (idStep_inv st p i hp h)

theorem idFileStep_inv (st : List (String × String) × List Violation) (f : ScannedFile)
    (h : idInv st) : idInv (idFileStep st f) := by
  obtain ⟨p, c⟩ := f
  obtain ⟨reg, vs⟩ := st
  by_cases h1 : (p == reportFilePath) = true
  · simpa [idFileStep, h1] using h
  · have hp : p ≠ reportFilePath := by simpa using h1
    simp only [Bool.not_eq_true] at h1
    by_cases h2 : (suffixLower p == ".json") = true
    · cases c with
      | ok raw parsed =>
        cases parsed with
        | some v =>
          simp only [idFileStep, h1, h2, Bool.false_eq_true, if_false, if_true]
          exact idsFoldl_inv p hp (extract_ids_from_json v) (reg, vs) h
        | none => simpa [idFileStep, h1, h2] using h
      | unicodeErr m => simpa [idFileStep, h1, h2] using h
      | exc m =>
        simp only [idFileStep, h1, h2, Bool.false_eq_true, if_false, if_true]
        refine ⟨h.1, ?_⟩
        intro w hw
        rcases List.mem_append.mp hw with hw | hw
        · exact h.2 w hw
        · simp only [List.mem_singleton] at hw
          subst hw
          exact ⟨hp, by simp [mkReadErrViolation]⟩
    · simp only [Bool.not_eq_true] at h2
      simpa [idFileStep, h1, h2] using h

theorem idFilesFoldl_inv :
    ∀ (files : List ScannedFile) (st : List (String × String) × List Violation),
      idInv st → idInv (files.foldl idFileStep st) := by
  intro files
  induction files with
  | nil => intro st h; simpa using h
  | cons f fs ih =>
    intro st h
    rw [List.foldl_cons]
    exact ih _ (idFileStep_inv st f h)

/-- **C9.** The checker's own prior output file is skipped by both cross
checks: no violation of either check names it (as `file` or `other_file`),
and no registry entry attributes an identifier to it. -/
theorem claim_C9 (env : Env) (files : List ScannedFile) :
    (∀ w ∈ check_id_uniqueness files,
       w.file ≠ reportFilePath ∧ w.other_file ≠ some reportFilePath)
    ∧ (∀ w ∈ check_file_references env files, w.file ≠ reportFilePath)
    ∧ (∀ e ∈ final_id_registry files, e.2 ≠ reportFilePath) := by
  have hinv : idInv (idCheckState files) :=
    idFilesFoldl_inv files ([], [])
      ⟨fun e he => by simp at he, fun w hw => by simp at hw⟩
  refine ⟨fun w hw => hinv.2 w hw, ?_, fun e he => hinv.1 e he⟩
  intro w hw
  rw [check_file_references_eq] at hw
  rcases List.mem_flatMap.mp hw with ⟨f, _, hwf⟩
  rcases refFileViolations_shape env f w hwf with ⟨hfile, hne, -⟩
  rw [hfile]
  exact hne

/-- Concrete batch for the C9 witness. -/
def c9Files : List ScannedFile :=
  [⟨"system/todo/rule_check_results.json", .ok "" (some (.obj [("id", .str "r1")]))⟩,
   ⟨"a.json", .ok "" (some (.obj [("id", .str "r1"), ("path", .str "gone/x.json")]))⟩]

/-- Witness for C9 at a batch containing the report file itself. -/
theorem claim_C9_witness :
    (∀ w ∈ check_id_uniqueness c9Files,
       w.file ≠ reportFilePath ∧ w.other_file ≠ some reportFilePath)
    ∧ (∀ w ∈ check_file_references ⟨"R", fun _ => false, none⟩ c9Files,
        w.file ≠ reportFilePath)
    ∧ (∀ e ∈ final_id_registry c9Files, e.2 ≠ reportFilePath) :=
  claim_C9 ⟨"R", fun _ => false, none⟩ c9Files

theorem idStep_sevOK (st : List (String × String) × List Violation) (p i : String)
    (h : ∀ w ∈ st.2, w.severity = "high" ∨ w.severity = "medium" ∨ w.severity = "low") :
    ∀ w ∈ (idStep st p i).2,
      w.severity = "high" ∨ w.severity = "medium" ∨ w.severity = "low" := by
  obtain ⟨reg, vs⟩ := st
  rw [idStep_eq]
  intro w hw
  rcases List.mem_append.mp hw with hw | hw
  · exact h w hw
  · cases hl : regLookup reg i with
    | some other =>
      simp only [idItemViol, hl, List.mem_singleton] at hw
      subst hw
      exact Or.inl rfl
    | none => simp [idItemViol, hl] at hw

theorem idsFoldl_sevOK (p : String) :
    ∀ (ids : List String) (st : List (String × String) × List Violation),
      (∀ w ∈ st.2, w.severity = "high" ∨ w.severity = "medium" ∨ w.severity = "low") →
      ∀ w ∈ (ids.foldl (fun acc i => idStep acc p i) st).2,
        w.severity = "high" ∨ w.severity = "medium" ∨ w.severity = "low" := by
  intro ids
  induction ids with
  | nil => intro st h; simpa using h
  | cons i ids ih =>
    intro st h
    rw [List.foldl_cons]
    exact ih _ (idStep_sevOK st p i h)

theorem idFileStep_sevOK (st : List (String × String) × List Violation) (f : ScannedFile)
    (h : ∀ w ∈ st.2, w.severity = "high" ∨ w.severity = "medium" ∨ w.severity = "low") :
    ∀ w ∈ (idFileStep st f).2,
      w.severity = "high" ∨ w.severity = "medium" ∨ w.severity = "low" := by
  obtain ⟨p, c⟩ := f
  obtain ⟨reg, vs⟩ := st
  by_cases h1 : (p == reportFilePath) = true
  · simpa [idFileStep, h1] using h
  · simp only [Bool.not_eq_true] at h1
    by_cases h2 : (suffixLower p == ".json") = true
    · cases c with
      | ok raw parsed =>
        cases parsed with
        | some v =>
          simp only [idFileStep, h1, h2, Bool.false_eq_true, if_false, if_true]
          exact idsFoldl_sevOK p (extract_ids_from_json v) (reg, vs) h
        | none => simpa [idFileStep, h1, h2] using h
      | unicodeErr m => simpa [idFileStep, h1, h2] using h
      | exc m =>
        simp only [idFileStep, h1, h2, Bool.false_eq_true, if_false, if_true]
        intro w hw
        rcases List.mem_append.mp hw with hw | hw
        · exact h w hw
        · simp only [List.mem_singleton] at hw
          subst hw
          exact Or.inr (Or.inl rfl)
    · simp only [Bool.not_eq_true] at h2
      simpa [idFileStep, h1, h2] using h

theorem idFilesFoldl_sevOK :
    ∀ (files : List ScannedFile) (st : List (String × String) × List Violation),
      (∀ w ∈ st.2, w.severity = "high" ∨ w.severity = "medium" ∨ w.severity = "low") →
      ∀ w ∈ (files.foldl idFileStep st).2,
        w.severity = "high" ∨ w.severity = "medium" ∨ w.severity = "low" := by
  intro files
  induction files with
  | nil => intro st h; simpa using h
  | cons f fs ih =>
    intro st h
    rw [List.foldl_cons]
    exact ih _ (idFileStep_sevOK st f h)

theorem refs_sevOK (env : Env) (files : List ScannedFile) :
    ∀ w ∈ check_file_references env files,
      w.severity = "high" ∨ w.severity = "medium" ∨ w.severity = "low" := by
  intro w hw
  rw [check_file_references_eq] at hw
  rcases List.mem_flatMap.mp hw with ⟨f, _, hwf⟩
  rcases refFileViolations_shape env f w hwf with ⟨-, -, hsh⟩
  rcases hsh with ⟨m, rfl⟩ | ⟨r, rfl⟩ | ⟨r, rfl⟩
  · exact Or.inr (Or.inr rfl)
  · have hs := (mkBrokenRefViolation_fields env.masterIndex f.path r).2.2.2.2.1
    by_cases hi : get_area_status env.masterIndex r = "inactive"
    · exact Or.inr (Or.inr (by rw [hs, if_pos hi]))
    · exact Or.inl (by rw [hs, if_neg hi])
  · exact Or.inr (Or.inl rfl)

theorem pep8Line_sevOK (p : String) (n : Nat) (line : String) :
    ∀ w ∈ pep8LineViolations p n line,
      w.severity = "low" ∨ w.severity = "medium" := by
  intro w hw
  unfold pep8LineViolations at hw
  rcases List.mem_append.mp hw with hw | hw
  · rcases List.mem_append.mp hw with hw | hw
    · split at hw
      · simp only [List.mem_singleton] at hw
        subst hw
        exact Or.inl rfl
      · simp at hw
    · split at hw
      · simp only [List.mem_singleton] at hw
        subst hw
        exact Or.inr rfl
      · simp at hw
  · split at hw
    · simp only [List.mem_singleton] at hw
      subst hw
      exact Or.inl rfl
    · simp at hw

theorem pep8File_sevOK (f : ScannedFile) :
    ∀ w ∈ pep8FileViolations f, w.severity = "low" ∨ w.severity = "medium" := by
  intro w hw
  obtain ⟨p, c⟩ := f
  by_cases h1 : (suffixLower p == ".py") = true
  · cases c with
    | ok raw parsed =>
      simp only [pep8FileViolations, h1, if_true] at hw
      have hE := foldl_body_flatMap
        (fun (vs : List Violation) (pr : Nat × String) =>
          vs ++ pep8LineViolations p (pr.1 + 1) pr.2)
        (fun (pr : Nat × String) => pep8LineViolations p (pr.1 + 1) pr.2)
        (fun _ _ => rfl) (pyReadlines raw).enum []
      rw [hE, List.nil_append] at hw
      rcases List.mem_flatMap.mp hw with ⟨pr, _, hwp⟩
      exact pep8Line_sevOK p (pr.1 + 1) pr.2 w hwp
    | unicodeErr m =>
      simp only [pep8FileViolations, h1, if_true, List.mem_singleton] at hw
      subst hw
      exact Or.inl rfl
    | exc m =>
      simp only [pep8FileViolations, h1, if_true, List.mem_singleton] at hw
      subst hw
      exact Or.inl rfl
  · simp only [Bool.not_eq_true] at h1
    simp [pep8FileViolations, h1] at hw

theorem langFile_sevOK (f : ScannedFile) :
    ∀ w ∈ langFileViolations f, w.severity = "low" := by
  intro w hw
  obtain ⟨p, c⟩ := f
  by_cases h1 : (p == "README.md") = true
  · cases c with
    | ok raw parsed =>
      simp only [langFileViolations, h1, if_true] at hw
      split at hw
      · simp only [List.mem_singleton] at hw
        subst hw
        rfl
      · simp at hw
    | unicodeErr m => simp [langFileViolations, h1] at hw
    | exc m => simp [langFileViolations, h1] at hw
  · simp only [Bool.not_eq_true] at h1
    simp [langFileViolations, h1] at hw

theorem violationSummaryFrom_isSome :
    ∀ (vs : List Violation) (acc : List (String × SummaryEntry)),
      (∀ w ∈ vs, w.severity = "high" ∨ w.severity = "medium" ∨ w.severity = "low") →
      (violationSummaryFrom acc vs).isSome = true := by
  intro vs
  induction vs with
  | nil => intro acc _; rfl
  | cons v rest ih =>
    intro acc h
    have hv := h v (List.mem_cons_self v rest)
    have hrest : ∀ w ∈ rest,
        w.severity = "high" ∨ w.severity = "medium" ∨ w.severity = "low" :=
      fun w hw => h w (List.mem_cons_of_mem v hw)
    rcases hv with hs | hs | hs <;>
      simp only [violationSummaryFrom, tallyStep, hs, bumpField, Option.some_bind,
        Option.map_some] <;>
      exact ih _ hrest

/-- **C10.** Every violation produced by the four checks carries severity
`high`, `medium` or `low`, and consequently the per-rule tally of
`run_all_checks` is total (it never hits a severity key outside the
bucket). -/
theorem claim_C10 (env : Env) (files : List ScannedFile) :
    (∀ w ∈ runAllViolations env files,
        w.severity = "high" ∨ w.severity = "medium" ∨ w.severity = "low")
    ∧ (violation_summary (runAllViolations env files)).isSome = true := by
  have hall : ∀ w ∈ runAllViolations env files,
      w.severity = "high" ∨ w.severity = "medium" ∨ w.severity = "low" := by
    intro w hw
    unfold runAllViolations at hw
    rcases List.mem_append.mp hw with hw | hw
    · rcases List.mem_append.mp hw with hw | hw
      · rcases List.mem_append.mp hw with hw | hw
        · exact idFilesFoldl_sevOK files ([], []) (fun w hw => by simp at hw) w hw
        · exact refs_sevOK env files w hw
      · rw [check_pep8_compliance_eq] at hw
        rcases List.mem_flatMap.mp hw with ⟨f, _, hwf⟩
        rcases pep8File_sevOK f w hwf with hs | hs
        · exact Or.inr (Or.inr hs)
        · exact Or.inr (Or.inl hs)
    · rw [check_language_compliance_eq] at hw
      rcases List.mem_flatMap.mp hw with ⟨f, _, hwf⟩
      exact Or.inr (Or.inr (langFile_sevOK f w hwf))
  exact ⟨hall, violationSummaryFrom_isSome _ [] hall⟩

/-- Witness for C10 at a concrete batch exercising all four checks. -/
def c10Files : List ScannedFile :=
  [⟨"a.json", .ok "" (some (.obj [("id", .str "x"), ("path", .str "gone/x.json")]))⟩,
   ⟨"b.json", .ok "" (some (.obj [("id", .str "x")]))⟩,
   ⟨"c.py", .ok "x = 1\t \n" none⟩,
   ⟨"d.json", .exc "boom"⟩]

/-- Witness for C10. -/
theorem claim_C10_witness :
    (∀ w ∈ runAllViolations ⟨"R", fun _ => false, none⟩ c10Files,
        w.severity = "high" ∨ w.severity = "medium" ∨ w.severity = "low")
    ∧ (violation_summary
        (runAllViolations ⟨"R", fun _ => false, none⟩ c10Files)).isSome = true :=
  claim_C10 ⟨"R", fun _ => false, none⟩ c10Files

end MetroRuleChecker
